import Mathlib

/-!
Verification of the Rough Casting System core (src/loop.py).

The relational store (tables `products` and `transaction_logs`) is embedded
as explicit list-valued state.  The two mutating operations of the core —
product registration (`register_product_page`, lines 198-247) and the stock
update of the scan page (`scan_page`, lines 302-327) — are embedded as pure
state transformers returning `Except`.  Timestamps, the current date and the
random token of the identifier generator are passed as explicit parameters,
since in the source they come from `datetime.now()` and `random.choices`.
The QR decode pipeline of `scan_page` (lines 271-291) is embedded over an
abstract JSON value type, with the external `json.loads` library call passed
as a function parameter.
-/

/-- A row of the `products` table (loop.py lines 22-33). -/
structure Batch where
  batch_id : String
  product_name : String
  company : String
  level : String
  deadline : String
  stock_percent : Int
  status : String
  last_updated : String
deriving DecidableEq, Repr

/-- A row of the `transaction_logs` table (loop.py lines 36-47).
`username` is the actor attribution column. -/
structure LogEntry where
  log_id : Nat
  username : String
  batch_id : String
  operation : String
  quantity_change : Int
  previous_stock : Int
  new_stock : Int
  timestamp : String
deriving DecidableEq, Repr

/-- The persistent store: the `products` table and the `transaction_logs`
table, each kept in insertion order (`log_id` is the auto-increment key). -/
structure DB where
  products : List Batch
  logs : List LogEntry
deriving DecidableEq, Repr

def emptyDB : DB := ⟨[], []⟩

/-- `s[:n]` of Python string slicing. -/
def strTake (n : Nat) (s : String) : String := ⟨s.data.take n⟩

/-- One character of Python's `str.upper()`, which applies the Unicode full
case mapping: a character may uppercase to more than one character.  The
model is exact on the ASCII range (where the mapping is the usual one-to-one
letter mapping) and covers the sharp-s expansion to "SS", the canonical
length-changing case; the remaining non-ASCII mappings are not tabulated
here, so theorems that need exactness beyond this carry explicit ASCII
hypotheses on the characters involved. -/
def pyUpperChar (c : Char) : List Char :=
  if c = 'ß' then ['S', 'S'] else [c.toUpper]

/-- Python `str.upper()` over a character list: concatenation of the
per-character full case mappings. -/
def pyUpper : List Char → List Char
  | [] => []
  | c :: cs => pyUpperChar c ++ pyUpper cs

/-- `s.upper()` of Python. -/
def strUpper (s : String) : String := ⟨pyUpper s.data⟩

/-- The identifier generator of `register_product_page` (loop.py lines
209-214): `company[:3].upper() + "-" + product_name[:3].upper() + "-" +
date YYMMDD + "-" + token`, where `date` stands for
`datetime.now().strftime` and `tok` for the four characters drawn by
`random.choices(string.ascii_uppercase + string.digits, k=4)`. -/
def mkBatchId (company product_name date tok : String) : String :=
  strUpper (strTake 3 company) ++ "-" ++ strUpper (strTake 3 product_name) ++ "-" ++
    date ++ "-" ++ tok

/-- Failure outcomes of the two store operations: `IntegrityError` is the
`sqlite3.IntegrityError` raised by a PRIMARY KEY conflict on insert;
`RangeError` is the rejected out-of-range stock update ("Stock must be
between 0 and 100", line 305); `NotFound` is "Product not found"
(line 289). -/
inductive OpError where
  | IntegrityError
  | RangeError
  | NotFound
deriving DecidableEq, Repr

/-- `register_product_page` (loop.py lines 209-247): builds the identifier,
inserts the product row and the "Initial Registration" log row with the one
timestamp `ts`.  The insert into `products` hits the PRIMARY KEY on
`batch_id`: if the identifier already exists, sqlite raises
`IntegrityError` and nothing is written (there is no retry in the source). -/
def registerProduct (db : DB) (username product_name company level deadline : String)
    (stock_percent : Int) (date tok ts : String) : Except OpError DB :=
  let batch_id := mkBatchId company product_name date tok
  if db.products.any (fun p => p.batch_id == batch_id) then
    Except.error OpError.IntegrityError
  else
    Except.ok
      { products := db.products ++
          [⟨batch_id, product_name, company, level, deadline, stock_percent,
            "Pending", ts⟩],
        logs := db.logs ++
          [⟨db.logs.length + 1, username, batch_id, "Initial Registration",
            stock_percent, 0, stock_percent, ts⟩] }

/-- The stock-update branch of `scan_page` (loop.py lines 282-327): resolve
the batch (`SELECT * FROM products WHERE batch_id=?`, first row), compute
`new_stock = current_stock + change`, reject if outside [0,100], otherwise
update `stock_percent` and `last_updated` of the matching row and append a
"Stock Update" log entry, all stamped with the one timestamp `ts`. -/
def updateStock (db : DB) (username batch_id : String) (change : Int) (ts : String) :
    Except OpError DB :=
  match db.products.find? (fun p => p.batch_id == batch_id) with
  | none => Except.error OpError.NotFound
  | some product =>
    let current_stock := product.stock_percent
    let new_stock := current_stock + change
    if 0 ≤ new_stock ∧ new_stock ≤ 100 then
      Except.ok
        { products := db.products.map (fun p =>
            if p.batch_id == batch_id then
              { p with stock_percent := new_stock, last_updated := ts }
            else p),
          logs := db.logs ++
            [⟨db.logs.length + 1, username, batch_id, "Stock Update", change,
              current_stock, new_stock, ts⟩] }
    else Except.error OpError.RangeError

/-- One user-level operation against the store, with the ambient inputs
(timestamp, date, random token) made explicit. -/
inductive Op where
  | register (username product_name company level deadline : String)
      (stock_percent : Int) (date tok ts : String)
  | update (username batch_id : String) (change : Int) (ts : String)
deriving DecidableEq, Repr

/-- The effect of one operation on the store: a failed operation only shows
an error in the UI (`st.error`) and writes nothing. -/
def step (db : DB) : Op → DB
  | Op.register u pn c lv dl s date tok ts =>
    match registerProduct db u pn c lv dl s date tok ts with
    | Except.ok db2 => db2
    | Except.error _ => db
  | Op.update u bid ch ts =>
    match updateStock db u bid ch ts with
    | Except.ok db2 => db2
    | Except.error _ => db

/-- Running a sequence of operations from the empty store. -/
def run (ops : List Op) : DB := ops.foldl step emptyDB

/-- The bounds the input widgets enforce on the core's integer inputs:
`st.slider("Initial Stock %", 0, 100, 50)` (line 203) and
`st.number_input` for the stock change, bounded by -100 and 100 (line 299). -/
def validOp : Op → Bool
  | Op.register _ _ _ _ _ s _ _ _ => decide (0 ≤ s) && decide (s ≤ 100)
  | Op.update _ _ ch _ => decide (-100 ≤ ch) && decide (ch ≤ 100)

/-- The audit trail of one batch, in `log_id` order. -/
def logsFor (logs : List LogEntry) (bid : String) : List LogEntry :=
  logs.filter (fun e => e.batch_id == bid)

/-- `chainFrom s L` holds when `L` is a well-formed audit chain starting
from stock `s`: each entry's `previous_stock` is the running stock, its
`new_stock` is `previous_stock + quantity_change`, and the running stock
becomes its `new_stock`. -/
def chainFrom : Int → List LogEntry → Bool
  | _, [] => true
  | s, e :: es =>
    (e.previous_stock == s) && (e.new_stock == e.previous_stock + e.quantity_change)
      && chainFrom e.new_stock es

/-- The stock after replaying a trail from `s` (the last entry's
`new_stock` when the trail is non-empty). -/
def endState : Int → List LogEntry → Int
  | s, [] => s
  | _, e :: es => endState e.new_stock es

/-- An abstract JSON value, the result of the external `json.loads`. -/
inductive Json where
  | null
  | bool (b : Bool)
  | num (n : Int)
  | str (s : String)
  | arr (xs : List Json)
  | obj (fields : List (String × Json))

/-- The decode failures the spec names. -/
inductive DecodeErr where
  | NoCodeFound
  | MalformedPayload
deriving DecidableEq, Repr

/-- Outcome of the scan pipeline: an error reported through the UI
(`st.error`), an uncaught Python exception escaping the handler, or the
extracted `batch_id` value. -/
inductive DecodeOutcome where
  | reported (e : DecodeErr)
  | raised (exn : String)
  | ok (batchId : Json)

/-- Python dict subscription on the parsed object. -/
def lookupField (fields : List (String × Json)) (key : String) : Option Json :=
  (fields.find? (fun kv => kv.fst == key)).map (fun kv => kv.snd)

/-- The decode half of `scan_page` (loop.py lines 271-279): `data` is the
string returned by `cv2.QRCodeDetector().detectAndDecode` (empty when no
code is found) and `loads` is the external `json.loads`, returning `none`
when the string is not parseable JSON.  `if not data:` reports
"No QR code detected"; otherwise the source runs
`json.loads(data)["batch_id"]` bare: a parse failure raises
`json.JSONDecodeError`, subscripting a non-object raises `TypeError`, and
a missing `batch_id` key raises `KeyError` — none of these is caught. -/
def scanDecode (data : String) (loads : String → Option Json) : DecodeOutcome :=
  if data = "" then DecodeOutcome.reported DecodeErr.NoCodeFound
  else
    match loads data with
    | none => DecodeOutcome.raised "json.JSONDecodeError"
    | some (Json.obj fields) =>
      match lookupField fields "batch_id" with
      | some v => DecodeOutcome.ok v
      | none => DecodeOutcome.raised "KeyError"
    | some _ => DecodeOutcome.raised "TypeError"

/-- The encode half (loop.py line 249): `qrcode.make(json.dumps(
dict batch_id to id))`.  The external serializer-plus-raster channel
(`json.dumps`, `qrcode.make`, and `cv2` recovery of the payload string) is
the parameter `dumps`; the source's own contribution is wrapping the
identifier in a one-field object. -/
def qrEncode (dumps : Json → String) (id : String) : String :=
  dumps (Json.obj [("batch_id", Json.str id)])

def isRaisedOutcome : DecodeOutcome → Bool
  | DecodeOutcome.raised _ => true
  | _ => false

/-- Whether a character is from `string.ascii_uppercase + string.digits`. -/
def isUpperOrDigit (c : Char) : Bool :=
  (65 ≤ c.toNat && c.toNat ≤ 90) || c.isDigit

/-- Splitting a character list on the dash separator. -/
def splitDash : List Char → List (List Char)
  | [] => [[]]
  | c :: cs =>
    if c = '-' then [] :: splitDash cs
    else
      match splitDash cs with
      | [] => [[c]]
      | g :: gs => (c :: g) :: gs

/-- Whether an identifier has the shape AAA-BBB-YYMMDD-XXXX claimed for the
generator: four dash-separated segments of lengths 3, 3, 6, 4, with the
third all digits and the fourth drawn from uppercase letters and digits. -/
def matchesFormat (id : String) : Bool :=
  match splitDash id.data with
  | [a, b, d, t] =>
    a.length == 3 && b.length == 3 && d.length == 6 && d.all Char.isDigit &&
      t.length == 4 && t.all isUpperOrDigit
  | _ => false

/-! Helper lemmas about audit chains and the two operations. -/

theorem chainFrom_concat (e : LogEntry) :
    ∀ (xs : List LogEntry) (s : Int),
      chainFrom s (xs ++ [e]) = true ↔
        (chainFrom s xs = true ∧ e.previous_stock = endState s xs ∧
          e.new_stock = e.previous_stock + e.quantity_change)
  | [], s => by simp [chainFrom, endState, and_comm]
  | x :: xs, s => by
    simp only [List.cons_append, chainFrom, endState, Bool.and_eq_true, beq_iff_eq,
      List.append_eq, chainFrom_concat e xs x.new_stock]
    tauto

theorem endState_concat (e : LogEntry) :
    ∀ (xs : List LogEntry) (s : Int), endState s (xs ++ [e]) = e.new_stock
  | [], _ => rfl
  | x :: xs, _ => endState_concat e xs x.new_stock

theorem endState_getLast :
    ∀ (xs : List LogEntry) (s : Int) (e : LogEntry),
      xs.getLast? = some e → endState s xs = e.new_stock
  | [], _, _, h => by simp at h
  | [x], _, e, h => by
    simp at h
    subst h
    rfl
  | x :: y :: xs, _, e, h => by
    rw [List.getLast?_cons_cons] at h
    exact endState_getLast (y :: xs) x.new_stock e h

theorem chainFrom_head (s : Int) (e : LogEntry) (es : List LogEntry)
    (h : chainFrom s (e :: es) = true) : e.previous_stock = s := by
  simp only [chainFrom, Bool.and_eq_true, beq_iff_eq] at h
  exact h.1.1

theorem chainFrom_sums :
    ∀ (xs : List LogEntry) (s : Int), chainFrom s xs = true →
      ∀ e ∈ xs, e.new_stock = e.previous_stock + e.quantity_change
  | [], _, _, e, he => by simp at he
  | x :: xs, s, h, e, he => by
    simp only [chainFrom, Bool.and_eq_true, beq_iff_eq] at h
    rw [List.mem_cons] at he
    rcases he with rfl | he
    · exact h.1.2
    · exact chainFrom_sums xs x.new_stock h.2 e he

theorem logsFor_concat (logs : List LogEntry) (e : LogEntry) (bid : String) :
    logsFor (logs ++ [e]) bid =
      logsFor logs bid ++ (if e.batch_id = bid then [e] else []) := by
  by_cases h : e.batch_id = bid <;>
    simp [logsFor, List.filter_append, List.filter_cons, List.filter_nil, h]

theorem pyUpper_length_of_ascii :
    ∀ l : List Char, (∀ c ∈ l, c.toNat ≤ 127) → (pyUpper l).length = l.length
  | [], _ => rfl
  | c :: cs, h => by
    have hc : c ≠ 'ß' := by
      intro hcon
      have := h c (List.mem_cons_self c cs)
      rw [hcon] at this
      exact absurd this (by decide)
    have ih := pyUpper_length_of_ascii cs (fun d hd => h d (List.mem_cons_of_mem c hd))
    simp [pyUpper, pyUpperChar, hc, ih]

theorem registerProduct_ok (db db2 : DB) (u pn c lv dl : String) (s : Int)
    (date tok ts : String)
    (h : registerProduct db u pn c lv dl s date tok ts = Except.ok db2) :
    (∀ p ∈ db.products, p.batch_id ≠ mkBatchId c pn date tok) ∧
    db2.products = db.products ++
      [⟨mkBatchId c pn date tok, pn, c, lv, dl, s, "Pending", ts⟩] ∧
    db2.logs = db.logs ++
      [⟨db.logs.length + 1, u, mkBatchId c pn date tok, "Initial Registration",
        s, 0, s, ts⟩] := by
  simp only [registerProduct] at h
  split at h
  · cases h
  · next hguard =>
    constructor
    · intro p hp hbid
      exact hguard (List.any_eq_true.mpr ⟨p, hp, by simp [hbid]⟩)
    · injection h with h
      subst h
      exact ⟨rfl, rfl⟩

theorem updateStock_ok (db db2 : DB) (u bid : String) (ch : Int) (ts : String)
    (h : updateStock db u bid ch ts = Except.ok db2) :
    ∃ p0, db.products.find? (fun p => p.batch_id == bid) = some p0 ∧
      0 ≤ p0.stock_percent + ch ∧ p0.stock_percent + ch ≤ 100 ∧
      db2.products = db.products.map (fun p =>
        if p.batch_id == bid then
          { p with stock_percent := p0.stock_percent + ch, last_updated := ts }
        else p) ∧
      db2.logs = db.logs ++
        [⟨db.logs.length + 1, u, bid, "Stock Update", ch, p0.stock_percent,
          p0.stock_percent + ch, ts⟩] := by
  cases hf : db.products.find? (fun p => p.batch_id == bid) with
  | none =>
    simp only [updateStock, hf] at h
    cases h
  | some p0 =>
    simp only [updateStock, hf] at h
    split at h
    · next hrange =>
      injection h with h
      subst h
      exact ⟨p0, rfl, hrange.1, hrange.2, rfl, rfl⟩
    · cases h

/-- The reachable-state invariant tying the `products` table to the audit
trail: identifiers are unique, every log entry belongs to a product, entry
arithmetic is consistent, each product's trail is a well-formed chain from 0
whose final state is the product's current `stock_percent`, and stock stays
inside [0,100]. -/
structure StoreInv (db : DB) : Prop where
  nodup : (db.products.map Batch.batch_id).Nodup
  owned : ∀ e ∈ db.logs, ∃ p ∈ db.products, p.batch_id = e.batch_id
  sums : ∀ e ∈ db.logs, e.new_stock = e.previous_stock + e.quantity_change
  chains : ∀ p ∈ db.products, chainFrom 0 (logsFor db.logs p.batch_id) = true
  nonnil : ∀ p ∈ db.products, logsFor db.logs p.batch_id ≠ []
  current : ∀ p ∈ db.products, endState 0 (logsFor db.logs p.batch_id) = p.stock_percent
  bounds : ∀ p ∈ db.products, 0 ≤ p.stock_percent ∧ p.stock_percent ≤ 100

theorem StoreInv_empty : StoreInv emptyDB := by
  constructor <;> simp [emptyDB]

theorem StoreInv_register (db db2 : DB) (u pn c lv dl : String) (s : Int)
    (date tok ts : String) (hs0 : 0 ≤ s) (hs1 : s ≤ 100) (hinv : StoreInv db)
    (h : registerProduct db u pn c lv dl s date tok ts = Except.ok db2) :
    StoreInv db2 := by
  obtain ⟨hfresh, hp, hl⟩ := registerProduct_ok db db2 u pn c lv dl s date tok ts h
  set bid := mkBatchId c pn date tok with hbid
  have hfilterNil : logsFor db.logs bid = [] := by
    rw [List.eq_nil_iff_forall_not_mem]
    intro e he
    rw [logsFor, List.mem_filter] at he
    obtain ⟨p, hpmem, hpbid⟩ := hinv.owned e he.1
    exact hfresh p hpmem (hpbid.trans (beq_iff_eq.mp he.2))
  have htrailOld : ∀ p : Batch, p ∈ db.products →
      logsFor db2.logs p.batch_id = logsFor db.logs p.batch_id := by
    intro p hpmem
    rw [hl, logsFor_concat, if_neg, List.append_nil]
    exact fun hc => hfresh p hpmem hc.symm
  have htrailNew : logsFor db2.logs bid =
      [⟨db.logs.length + 1, u, bid, "Initial Registration", s, 0, s, ts⟩] := by
    rw [hl, logsFor_concat, if_pos rfl, hfilterNil, List.nil_append]
  constructor
  · rw [hp, List.map_append, List.nodup_append]
    refine ⟨hinv.nodup, by simp, ?_⟩
    intro a ha hmem
    simp only [List.map_cons, List.map_nil, List.mem_singleton] at hmem
    obtain ⟨p, hpmem, hpa⟩ := List.mem_map.mp ha
    exact hfresh p hpmem (hpa.trans hmem)
  · intro e he
    rw [hl, List.mem_append] at he
    rcases he with he | he
    · obtain ⟨p, hpmem, hpbid⟩ := hinv.owned e he
      exact ⟨p, by rw [hp]; exact List.mem_append_left _ hpmem, hpbid⟩
    · rw [List.mem_singleton] at he
      subst he
      exact ⟨⟨bid, pn, c, lv, dl, s, "Pending", ts⟩,
        by rw [hp]; exact List.mem_append_right _ (List.mem_singleton.mpr rfl), rfl⟩
  · intro e he
    rw [hl, List.mem_append] at he
    rcases he with he | he
    · exact hinv.sums e he
    · rw [List.mem_singleton] at he
      subst he
      simp
  · intro p hpmem
    rw [hp, List.mem_append] at hpmem
    rcases hpmem with hpmem | hpmem
    · rw [htrailOld p hpmem]
      exact hinv.chains p hpmem
    · rw [List.mem_singleton] at hpmem
      subst hpmem
      rw [htrailNew]
      simp [chainFrom]
  · intro p hpmem
    rw [hp, List.mem_append] at hpmem
    rcases hpmem with hpmem | hpmem
    · rw [htrailOld p hpmem]
      exact hinv.nonnil p hpmem
    · rw [List.mem_singleton] at hpmem
      subst hpmem
      rw [htrailNew]
      simp
  · intro p hpmem
    rw [hp, List.mem_append] at hpmem
    rcases hpmem with hpmem | hpmem
    · rw [htrailOld p hpmem]
      exact hinv.current p hpmem
    · rw [List.mem_singleton] at hpmem
      subst hpmem
      rw [htrailNew]
      rfl
  · intro p hpmem
    rw [hp, List.mem_append] at hpmem
    rcases hpmem with hpmem | hpmem
    · exact hinv.bounds p hpmem
    · rw [List.mem_singleton] at hpmem
      subst hpmem
      exact ⟨hs0, hs1⟩

theorem StoreInv_update (db db2 : DB) (u bid : String) (ch : Int) (ts : String)
    (hinv : StoreInv db) (h : updateStock db u bid ch ts = Except.ok db2) :
    StoreInv db2 := by
  obtain ⟨p0, hf, hlo, hhi, hp, hl⟩ := updateStock_ok db db2 u bid ch ts h
  have hp0mem : p0 ∈ db.products := List.mem_of_find?_eq_some hf
  have hp0bid : p0.batch_id = bid := by
    have hx := List.find?_some hf
    simpa using hx
  have hfid : ∀ p : Batch,
      ((if p.batch_id == bid then
        { p with stock_percent := p0.stock_percent + ch, last_updated := ts }
      else p) : Batch).batch_id = p.batch_id := by
    intro p
    by_cases hc : p.batch_id = bid <;> simp [hc]
  have hmapids : db2.products.map Batch.batch_id = db.products.map Batch.batch_id := by
    rw [hp, List.map_map]
    exact List.map_congr_left (fun a _ => hfid a)
  have huniq : ∀ p ∈ db.products, p.batch_id = bid → p = p0 := by
    intro p hpm hpb
    exact List.inj_on_of_nodup_map hinv.nodup hpm hp0mem (by rw [hpb, hp0bid])
  have htrailOld : ∀ p : Batch, p.batch_id ≠ bid →
      logsFor db2.logs p.batch_id = logsFor db.logs p.batch_id := by
    intro p hpb
    rw [hl, logsFor_concat, if_neg, List.append_nil]
    exact fun hc => hpb hc.symm
  have htrailNew : logsFor db2.logs bid = logsFor db.logs bid ++
      [⟨db.logs.length + 1, u, bid, "Stock Update", ch, p0.stock_percent,
        p0.stock_percent + ch, ts⟩] := by
    rw [hl, logsFor_concat, if_pos rfl]
  constructor
  · rw [hmapids]
    exact hinv.nodup
  · intro e he
    rw [hl, List.mem_append] at he
    rcases he with he | he
    · obtain ⟨p, hpmem, hpbid⟩ := hinv.owned e he
      refine ⟨(if p.batch_id == bid then
          { p with stock_percent := p0.stock_percent + ch, last_updated := ts }
        else p), ?_, ?_⟩
      · rw [hp]
        exact List.mem_map_of_mem _ hpmem
      · rw [hfid p]
        exact hpbid
    · rw [List.mem_singleton] at he
      subst he
      refine ⟨(if p0.batch_id == bid then
          { p0 with stock_percent := p0.stock_percent + ch, last_updated := ts }
        else p0), ?_, ?_⟩
      · rw [hp]
        exact List.mem_map_of_mem _ hp0mem
      · rw [hfid p0]
        exact hp0bid
  · intro e he
    rw [hl, List.mem_append] at he
    rcases he with he | he
    · exact hinv.sums e he
    · rw [List.mem_singleton] at he
      subst he
      rfl
  · intro q hqmem
    rw [hp] at hqmem
    obtain ⟨p, hpmem, hq⟩ := List.mem_map.mp hqmem
    by_cases hc : p.batch_id = bid
    · have hpp0 : p = p0 := huniq p hpmem hc
      subst hpp0
      have hq2 : q.batch_id = bid := by rw [← hq, hfid p]; exact hc
      rw [hq2, htrailNew]
      rw [chainFrom_concat]
      exact ⟨hp0bid ▸ hinv.chains p hpmem,
        by simp [(hp0bid ▸ hinv.current p hpmem : endState 0 (logsFor db.logs bid) = p.stock_percent)],
        by simp⟩
    · have hq2 : q.batch_id = p.batch_id := by rw [← hq, hfid p]
      rw [hq2, htrailOld p hc]
      exact hinv.chains p hpmem
  · intro q hqmem
    rw [hp] at hqmem
    obtain ⟨p, hpmem, hq⟩ := List.mem_map.mp hqmem
    by_cases hc : p.batch_id = bid
    · have hq2 : q.batch_id = bid := by rw [← hq, hfid p]; exact hc
      rw [hq2, htrailNew]
      simp
    · have hq2 : q.batch_id = p.batch_id := by rw [← hq, hfid p]
      rw [hq2, htrailOld p hc]
      exact hinv.nonnil p hpmem
  · intro q hqmem
    rw [hp] at hqmem
    obtain ⟨p, hpmem, hq⟩ := List.mem_map.mp hqmem
    by_cases hc : p.batch_id = bid
    · have hpp0 : p = p0 := huniq p hpmem hc
      subst hpp0
      have hq2 : q.batch_id = bid := by rw [← hq, hfid p]; exact hc
      have hqstock : q.stock_percent = p.stock_percent + ch := by
        rw [← hq]
        simp [hc]
      rw [hq2, htrailNew, endState_concat, hqstock]
    · have hq2 : q.batch_id = p.batch_id := by rw [← hq, hfid p]
      have hqstock : q.stock_percent = p.stock_percent := by
        rw [← hq]
        simp [hc]
      rw [hq2, htrailOld p hc, hqstock]
      exact hinv.current p hpmem
  · intro q hqmem
    rw [hp] at hqmem
    obtain ⟨p, hpmem, hq⟩ := List.mem_map.mp hqmem
    by_cases hc : p.batch_id = bid
    · have hpp0 : p = p0 := huniq p hpmem hc
      subst hpp0
      have hqstock : q.stock_percent = p.stock_percent + ch := by
        rw [← hq]
        simp [hc]
      rw [hqstock]
      exact ⟨hlo, hhi⟩
    · have hqstock : q.stock_percent = p.stock_percent := by
        rw [← hq]
        simp [hc]
      rw [hqstock]
      exact hinv.bounds p hpmem

theorem StoreInv_step (db : DB) (op : Op) (hinv : StoreInv db)
    (hv : validOp op = true) : StoreInv (step db op) := by
  cases op with
  | register u pn c lv dl s date tok ts =>
    simp only [validOp, Bool.and_eq_true, decide_eq_true_eq] at hv
    simp only [step]
    cases hh : registerProduct db u pn c lv dl s date tok ts with
    | ok db2 => exact StoreInv_register db db2 u pn c lv dl s date tok ts hv.1 hv.2 hinv hh
    | error e => exact hinv
  | update u bid ch ts =>
    simp only [step]
    cases hh : updateStock db u bid ch ts with
    | ok db2 => exact StoreInv_update db db2 u bid ch ts hinv hh
    | error e => exact hinv

theorem StoreInv_run_aux :
    ∀ (ops : List Op) (db : DB), StoreInv db → ops.all validOp = true →
      StoreInv (ops.foldl step db)
  | [], _, hinv, _ => hinv
  | op :: ops, db, hinv, hv => by
    rw [List.all_cons, Bool.and_eq_true] at hv
    exact StoreInv_run_aux ops (step db op) (StoreInv_step db op hinv hv.1) hv.2

theorem StoreInv_run (ops : List Op) (hv : ops.all validOp = true) :
    StoreInv (run ops) :=
  StoreInv_run_aux ops emptyDB StoreInv_empty hv

/-- C1: if the batch's current stock_percent plus the delta falls outside
[0,100], the stock update fails with RangeError and the store — the batch's
stock_percent and last_updated and the whole audit trail — is exactly
unchanged, and repeating the same invalid delta has no cumulative effect. -/
theorem rangeError_leaves_state_unchanged (db : DB) (u bid ts ts2 : String)
    (d : Int) (p : Batch)
    (hfind : db.products.find? (fun q => q.batch_id == bid) = some p)
    (hout : ¬ (0 ≤ p.stock_percent + d ∧ p.stock_percent + d ≤ 100)) :
    updateStock db u bid d ts = Except.error OpError.RangeError ∧
    step db (Op.update u bid d ts) = db ∧
    step (step db (Op.update u bid d ts)) (Op.update u bid d ts2) = db := by
  have h1 : updateStock db u bid d ts = Except.error OpError.RangeError := by
    simp only [updateStock, hfind]
    rw [if_neg hout]
  have h2 : step db (Op.update u bid d ts) = db := by
    simp only [step, h1]
  have h3 : updateStock db u bid d ts2 = Except.error OpError.RangeError := by
    simp only [updateStock, hfind]
    rw [if_neg hout]
  refine ⟨h1, h2, ?_⟩
  rw [h2]
  simp only [step, h3]

def dbC1 : DB :=
  ⟨[⟨"ACM-GEA-251012-AB12", "Gear", "Acme", "Raw", "2025-12-31", 70, "Pending", "t1"⟩],
   [⟨1, "admin", "ACM-GEA-251012-AB12", "Initial Registration", 70, 0, 70, "t1"⟩]⟩

theorem rangeError_leaves_state_unchanged_witness :
    updateStock dbC1 "admin" "ACM-GEA-251012-AB12" 40 "t2"
        = Except.error OpError.RangeError ∧
    step dbC1 (Op.update "admin" "ACM-GEA-251012-AB12" 40 "t2") = dbC1 ∧
    step (step dbC1 (Op.update "admin" "ACM-GEA-251012-AB12" 40 "t2"))
        (Op.update "admin" "ACM-GEA-251012-AB12" 40 "t3") = dbC1 :=
  rangeError_leaves_state_unchanged dbC1 "admin" "ACM-GEA-251012-AB12" "t2" "t3" 40
    ⟨"ACM-GEA-251012-AB12", "Gear", "Acme", "Raw", "2025-12-31", 70, "Pending", "t1"⟩
    (by decide) (by decide)

def opsC2 : List Op :=
  [Op.register "admin" "Gear" "Acme" "Raw" "2025-12-31" 50 "251012" "AB12" "t1"]

/-- C2 counterexample: registering a batch with initial stock 50 produces a
first audit entry whose previous_stock is 0, not the initial registration
value 50 (which is both the batch's initial stock_percent and the entry's
new_stock). -/
theorem first_entry_previous_stock_not_initial :
    (logsFor (run opsC2).logs "ACM-GEA-251012-AB12").head?.map LogEntry.previous_stock
        ≠ some 50 ∧
    (logsFor (run opsC2).logs "ACM-GEA-251012-AB12").head?.map LogEntry.previous_stock
        = some 0 ∧
    (run opsC2).products.head?.map Batch.stock_percent = some 50 := by
  decide

/-- C2 (amended): every audit entry satisfies
new_stock = previous_stock + quantity_change, and the trail of each batch in
log order is a chain in which each entry's previous_stock equals the
preceding entry's new_stock, the first entry's previous_stock is 0 (its
new_stock being the initial registration value), and the latest entry's
new_stock equals the batch's current stock_percent. -/
theorem audit_chain_invariant (ops : List Op) (hv : ops.all validOp = true) :
    (∀ e ∈ (run ops).logs, e.new_stock = e.previous_stock + e.quantity_change) ∧
    ∀ p ∈ (run ops).products,
      chainFrom 0 (logsFor (run ops).logs p.batch_id) = true ∧
      (logsFor (run ops).logs p.batch_id).head?.map LogEntry.previous_stock = some 0 ∧
      (logsFor (run ops).logs p.batch_id).getLast?.map LogEntry.new_stock
        = some p.stock_percent := by
  have hinv := StoreInv_run ops hv
  refine ⟨hinv.sums, fun p hp => ⟨hinv.chains p hp, ?_, ?_⟩⟩
  · cases hL : logsFor (run ops).logs p.batch_id with
    | nil => exact absurd hL (hinv.nonnil p hp)
    | cons e es =>
      have hc := hinv.chains p hp
      rw [hL] at hc
      simp [chainFrom_head 0 e es hc]
  · cases hLast : (logsFor (run ops).logs p.batch_id).getLast? with
    | none =>
      rw [List.getLast?_eq_none_iff] at hLast
      exact absurd hLast (hinv.nonnil p hp)
    | some e =>
      have h1 := endState_getLast (logsFor (run ops).logs p.batch_id) 0 e hLast
      have h2 := hinv.current p hp
      simp only [Option.map_some']
      rw [← h1, h2]

def opsC2w : List Op :=
  [Op.register "admin" "Gear" "Acme" "Raw" "2025-12-31" 50 "251012" "AB12" "t1",
   Op.update "admin" "ACM-GEA-251012-AB12" 20 "t2"]

theorem audit_chain_invariant_witness :
    chainFrom 0 (logsFor (run opsC2w).logs
        (⟨"ACM-GEA-251012-AB12", "Gear", "Acme", "Raw", "2025-12-31", 70,
          "Pending", "t2"⟩ : Batch).batch_id) = true ∧
    (logsFor (run opsC2w).logs
        (⟨"ACM-GEA-251012-AB12", "Gear", "Acme", "Raw", "2025-12-31", 70,
          "Pending", "t2"⟩ : Batch).batch_id).head?.map LogEntry.previous_stock
      = some 0 ∧
    (logsFor (run opsC2w).logs
        (⟨"ACM-GEA-251012-AB12", "Gear", "Acme", "Raw", "2025-12-31", 70,
          "Pending", "t2"⟩ : Batch).batch_id).getLast?.map LogEntry.new_stock
      = some (⟨"ACM-GEA-251012-AB12", "Gear", "Acme", "Raw", "2025-12-31", 70,
          "Pending", "t2"⟩ : Batch).stock_percent :=
  (audit_chain_invariant opsC2w (by decide)).2
    ⟨"ACM-GEA-251012-AB12", "Gear", "Acme", "Raw", "2025-12-31", 70, "Pending", "t2"⟩
    (by decide)

/-- C3: every reachable batch has 0 ≤ stock_percent ≤ 100; creation stores
an initial stock inside the slider's [0,100] range and every update
preserves the bound, rejecting out-of-range results without mutation. -/
theorem stock_percent_bounded (ops : List Op) (hv : ops.all validOp = true) :
    ∀ p ∈ (run ops).products, 0 ≤ p.stock_percent ∧ p.stock_percent ≤ 100 :=
  (StoreInv_run ops hv).bounds

def opsC3 : List Op :=
  [Op.register "admin" "Gear" "Acme" "Raw" "2025-12-31" 50 "251012" "AB12" "t1",
   Op.update "admin" "ACM-GEA-251012-AB12" 50 "t2",
   Op.update "admin" "ACM-GEA-251012-AB12" 50 "t3"]

theorem stock_percent_bounded_witness :
    0 ≤ (⟨"ACM-GEA-251012-AB12", "Gear", "Acme", "Raw", "2025-12-31", 100,
        "Pending", "t2"⟩ : Batch).stock_percent ∧
      (⟨"ACM-GEA-251012-AB12", "Gear", "Acme", "Raw", "2025-12-31", 100,
        "Pending", "t2"⟩ : Batch).stock_percent ≤ 100 :=
  stock_percent_bounded opsC3 (by decide)
    ⟨"ACM-GEA-251012-AB12", "Gear", "Acme", "Raw", "2025-12-31", 100, "Pending", "t2"⟩
    (by decide)

def cexLoads : String → Option Json :=
  fun _ => some (Json.obj [("other_field", Json.num 1)])

/-- C4 counterexample: on a decodable region whose payload parses as an
object without a batch_id field, the code raises an uncaught KeyError
(from the bare subscription at line 279) rather than reporting
MalformedPayload; so decode does throw on malformed input. -/
theorem missing_batch_id_raises :
    scanDecode "x" cexLoads = DecodeOutcome.raised "KeyError" ∧
    isRaisedOutcome (scanDecode "x" cexLoads) = true ∧
    scanDecode "x" cexLoads ≠ DecodeOutcome.reported DecodeErr.MalformedPayload := by
  refine ⟨rfl, rfl, ?_⟩
  intro hcon
  exact DecodeOutcome.noConfusion hcon

/-- C4 (amended): the scan pipeline reports NoCodeFound when no decodable
region exists; when a region decodes, a non-parseable payload raises an
uncaught JSONDecodeError, a parseable payload that is not an object raises
an uncaught TypeError, an object without batch_id raises an uncaught
KeyError, and an object with a batch_id field succeeds with that field's
value, ignoring unknown extra fields; on no input whatsoever does the
pipeline report MalformedPayload. -/
theorem scanDecode_cases (data : String) (loads : String → Option Json) :
    (data = "" → scanDecode data loads = DecodeOutcome.reported DecodeErr.NoCodeFound) ∧
    (data ≠ "" → loads data = none →
      scanDecode data loads = DecodeOutcome.raised "json.JSONDecodeError") ∧
    (∀ j, data ≠ "" → loads data = some j → (∀ fields, j ≠ Json.obj fields) →
      scanDecode data loads = DecodeOutcome.raised "TypeError") ∧
    (∀ fields, data ≠ "" → loads data = some (Json.obj fields) →
      lookupField fields "batch_id" = none →
      scanDecode data loads = DecodeOutcome.raised "KeyError") ∧
    (∀ fields v, data ≠ "" → loads data = some (Json.obj fields) →
      lookupField fields "batch_id" = some v →
      scanDecode data loads = DecodeOutcome.ok v) ∧
    scanDecode data loads ≠ DecodeOutcome.reported DecodeErr.MalformedPayload := by
  refine ⟨?_, ?_, ?_, ?_, ?_, ?_⟩
  · intro h
    simp [scanDecode, h]
  · intro h hn
    simp [scanDecode, h, hn]
  · intro j h hs hno
    cases j with
    | obj fields => exact absurd rfl (hno fields)
    | null => simp [scanDecode, h, hs]
    | bool b => simp [scanDecode, h, hs]
    | num n => simp [scanDecode, h, hs]
    | str s2 => simp [scanDecode, h, hs]
    | arr xs => simp [scanDecode, h, hs]
  · intro fields h hs hl
    simp [scanDecode, h, hs, hl]
  · intro fields v h hs hl
    simp [scanDecode, h, hs, hl]
  · intro hcon
    unfold scanDecode at hcon
    by_cases hd : data = ""
    · rw [if_pos hd] at hcon
      injection hcon with h
      cases h
    · rw [if_neg hd] at hcon
      cases hl : loads data with
      | none =>
        rw [hl] at hcon
        exact DecodeOutcome.noConfusion hcon
      | some j =>
        rw [hl] at hcon
        cases j with
        | obj fields =>
          have hcon2 : (match lookupField fields "batch_id" with
              | some v => DecodeOutcome.ok v
              | none => DecodeOutcome.raised "KeyError")
              = DecodeOutcome.reported DecodeErr.MalformedPayload := hcon
          cases hlk : lookupField fields "batch_id" with
          | none =>
            rw [hlk] at hcon2
            exact DecodeOutcome.noConfusion hcon2
          | some v =>
            rw [hlk] at hcon2
            exact DecodeOutcome.noConfusion hcon2
        | null => exact DecodeOutcome.noConfusion hcon
        | bool b => exact DecodeOutcome.noConfusion hcon
        | num n => exact DecodeOutcome.noConfusion hcon
        | str s2 => exact DecodeOutcome.noConfusion hcon
        | arr xs => exact DecodeOutcome.noConfusion hcon

def goodLoads : String → Option Json :=
  fun _ => some (Json.obj [("batch_id", Json.str "B1"), ("extra", Json.num 2)])

theorem scanDecode_cases_witness :
    scanDecode "x" goodLoads = DecodeOutcome.ok (Json.str "B1") :=
  (scanDecode_cases "x" goodLoads).2.2.2.2.1
    [("batch_id", Json.str "B1"), ("extra", Json.num 2)] (Json.str "B1")
    (by decide) rfl rfl

/-- C5 counterexample: registration with empty productName and company
succeeds and persists a batch — the code contains no emptiness validation
and no ValidationError. -/
theorem empty_name_registration_succeeds :
    (registerProduct emptyDB "admin" "" "" "Raw" "2025-12-31" 50 "251012" "AB12"
        "t1").isOk = true ∧
    (run [Op.register "admin" "" "" "Raw" "2025-12-31" 50 "251012" "AB12" "t1"]).products.length
        = 1 := by
  decide

/-- C5 (amended): the code validates nothing about productName, company or
initialStock: whenever the generated identifier is fresh, registration
succeeds for arbitrary inputs (empty strings included) and persists the
batch; the [0,100] bound on initialStock comes only from the slider widget. -/
theorem register_no_validation (db : DB) (u pn c lv dl : String) (s : Int)
    (date tok ts : String)
    (hfresh : ∀ p ∈ db.products, p.batch_id ≠ mkBatchId c pn date tok) :
    ∃ db2, registerProduct db u pn c lv dl s date tok ts = Except.ok db2 ∧
      (⟨mkBatchId c pn date tok, pn, c, lv, dl, s, "Pending", ts⟩ : Batch)
        ∈ db2.products := by
  have hguard : db.products.any (fun p => p.batch_id == mkBatchId c pn date tok)
      = false := by
    rw [List.any_eq_false]
    intro p hp
    simp [hfresh p hp]
  refine ⟨⟨db.products ++
      [⟨mkBatchId c pn date tok, pn, c, lv, dl, s, "Pending", ts⟩],
    db.logs ++
      [⟨db.logs.length + 1, u, mkBatchId c pn date tok, "Initial Registration",
        s, 0, s, ts⟩]⟩, ?_, ?_⟩
  · simp only [registerProduct, hguard, Bool.false_eq_true, if_false]
  · exact List.mem_append_right _ (List.mem_singleton.mpr rfl)

theorem register_no_validation_witness :
    ∃ db2, registerProduct emptyDB "admin" "" "" "Raw" "2025-12-31" 120 "251012"
        "AB12" "t1" = Except.ok db2 ∧
      (⟨mkBatchId "" "" "251012" "AB12", "", "", "Raw", "2025-12-31", 120,
        "Pending", "t1"⟩ : Batch) ∈ db2.products :=
  register_no_validation emptyDB "admin" "" "" "Raw" "2025-12-31" 120 "251012"
    "AB12" "t1" (by decide)

def dbC6 : DB :=
  run [Op.register "admin" "Gear" "Acme" "Raw" "2025-12-31" 50 "251012" "AB12" "t1"]

/-- C6 counterexample: when the generated identifier collides with an
existing one, the single insert attempt fails at once with IntegrityError
and nothing is written — there is no regeneration, no retry and no
DuplicateError, so a single collision does fail the registration. -/
theorem collision_fails_immediately :
    registerProduct dbC6 "admin" "Gear" "Acme" "Raw" "2025-12-31" 60 "251012"
        "AB12" "t2" = Except.error OpError.IntegrityError ∧
    step dbC6 (Op.register "admin" "Gear" "Acme" "Raw" "2025-12-31" 60 "251012"
        "AB12" "t2") = dbC6 :=
  ⟨rfl, rfl⟩

/-- C6 (amended): the registration logic generates the identifier once and
makes a single insert attempt; if the identifier already exists in storage
the insert raises sqlite3.IntegrityError, leaving the store unchanged —
there is no bounded retry and no DuplicateError in the code. -/
theorem collision_raises_integrity_error (db : DB) (u pn c lv dl : String)
    (s : Int) (date tok ts : String) (p : Batch) (hmem : p ∈ db.products)
    (hbid : p.batch_id = mkBatchId c pn date tok) :
    registerProduct db u pn c lv dl s date tok ts
        = Except.error OpError.IntegrityError ∧
    step db (Op.register u pn c lv dl s date tok ts) = db := by
  have hguard : db.products.any (fun q => q.batch_id == mkBatchId c pn date tok)
      = true :=
    List.any_eq_true.mpr ⟨p, hmem, by simp [hbid]⟩
  have h1 : registerProduct db u pn c lv dl s date tok ts
      = Except.error OpError.IntegrityError := by
    simp only [registerProduct, hguard, if_true]
  exact ⟨h1, by simp only [step, h1]⟩

theorem collision_raises_integrity_error_witness :
    registerProduct dbC6 "op2" "Gears" "Acmex" "Raw" "2026-01-01" 10 "251012"
        "AB12" "t9" = Except.error OpError.IntegrityError ∧
    step dbC6 (Op.register "op2" "Gears" "Acmex" "Raw" "2026-01-01" 10 "251012"
        "AB12" "t9") = dbC6 :=
  collision_raises_integrity_error dbC6 "op2" "Gears" "Acmex" "Raw" "2026-01-01"
    10 "251012" "AB12" "t9"
    ⟨"ACM-GEA-251012-AB12", "Gear", "Acme", "Raw", "2025-12-31", 50, "Pending", "t1"⟩
    (by decide) (by decide)

/-- C7: decoding the image produced by encoding a non-empty identifier
yields the identifier again, given the external channel contract: the
serializer-raster-detector channel carries the payload string faithfully
(hne, hch model json.dumps/qrcode/cv2 round-tripping the one-field
object). -/
theorem qr_roundtrip (dumps : Json → String) (loads : String → Option Json)
    (id : String) ( _hid : id ≠ "") (hne : qrEncode dumps id ≠ "")
    (hch : loads (qrEncode dumps id) = some (Json.obj [("batch_id", Json.str id)])) :
    scanDecode (qrEncode dumps id) loads = DecodeOutcome.ok (Json.str id) := by
  simp [scanDecode, hne, hch, lookupField]

def dumpsW : Json → String := fun _ => "qrpayload"

def loadsW : String → Option Json := fun s =>
  if s = "qrpayload" then
    some (Json.obj [("batch_id", Json.str "ACM-GEA-251012-AB12")])
  else none

theorem qr_roundtrip_witness :
    scanDecode (qrEncode dumpsW "ACM-GEA-251012-AB12") loadsW
      = DecodeOutcome.ok (Json.str "ACM-GEA-251012-AB12") :=
  qr_roundtrip dumpsW loadsW "ACM-GEA-251012-AB12" (by decide) (by decide) rfl

/-- C8 counterexample: a company shorter than 3 characters gives a first
segment of fewer than 3 characters, and a 3-character company starting with
sharp-s gives a first segment of 4 characters (Python's full case mapping
uppercases sharp-s to "SS"); in both cases the identifier does not match
the AAA-BBB-YYMMDD-XXXX format, although it does match for 3-or-longer
ASCII inputs. -/
theorem short_company_breaks_format :
    mkBatchId "AB" "Gear" "251012" "XY12" = "AB-GEA-251012-XY12" ∧
    matchesFormat (mkBatchId "AB" "Gear" "251012" "XY12") = false ∧
    mkBatchId "ßab" "Gear" "251012" "XY12" = "SSAB-GEA-251012-XY12" ∧
    matchesFormat (mkBatchId "ßab" "Gear" "251012" "XY12") = false ∧
    matchesFormat (mkBatchId "Acme" "Gear" "251012" "XY12") = true := by
  decide

/-- C8 (amended): the identifier is the uppercased first-min(3,length)
characters of company, "-", the uppercased first-min(3,length) characters of
productName, "-", the date, "-", the token; when company and productName
have length at least 3 and their first three characters are ASCII (so that
uppercasing is one-to-one), the two prefixes have exactly 3 characters,
giving the AAA-BBB-YYMMDD-XXXX shape (date and token being the YYMMDD clock
value and the 4-character alphanumeric draw of random.choices). -/
theorem mkBatchId_format (company product_name date tok : String)
    (hc : 3 ≤ company.length) (hp : 3 ≤ product_name.length)
    (hca : ∀ c ∈ (strTake 3 company).data, c.toNat ≤ 127)
    (hpa : ∀ c ∈ (strTake 3 product_name).data, c.toNat ≤ 127) :
    ∃ a b : String, mkBatchId company product_name date tok
        = a ++ "-" ++ b ++ "-" ++ date ++ "-" ++ tok ∧
      a.length = 3 ∧ b.length = 3 ∧
      a = strUpper (strTake 3 company) ∧ b = strUpper (strTake 3 product_name) := by
  refine ⟨strUpper (strTake 3 company), strUpper (strTake 3 product_name), rfl,
    ?_, ?_, rfl, rfl⟩
  · have h1 : (pyUpper (company.data.take 3)).length = (company.data.take 3).length :=
      pyUpper_length_of_ascii (company.data.take 3) hca
    simp only [strUpper, strTake, String.length] at h1 ⊢
    rw [h1, List.length_take]
    have hc2 : 3 ≤ company.data.length := hc
    omega
  · have h1 : (pyUpper (product_name.data.take 3)).length
        = (product_name.data.take 3).length :=
      pyUpper_length_of_ascii (product_name.data.take 3) hpa
    simp only [strUpper, strTake, String.length] at h1 ⊢
    rw [h1, List.length_take]
    have hp2 : 3 ≤ product_name.data.length := hp
    omega

theorem mkBatchId_format_witness :
    ∃ a b : String, mkBatchId "Acme" "Gear" "251012" "XY12"
        = a ++ "-" ++ b ++ "-" ++ "251012" ++ "-" ++ "XY12" ∧
      a.length = 3 ∧ b.length = 3 ∧
      a = strUpper (strTake 3 "Acme") ∧ b = strUpper (strTake 3 "Gear") :=
  mkBatchId_format "Acme" "Gear" "251012" "XY12" (by decide) (by decide)
    (by decide) (by decide)

/-- C9: a successful stock update only rewrites the matching batch's
stock_percent and last_updated (the record-update form keeps batch_id,
product_name, company, level, deadline and status, and non-matching batches
are returned untouched), appends exactly one audit entry, and no operation
ever modifies or deletes an existing audit entry (the log list of any step
is an extension of the previous one). -/
theorem update_frame (db db2 db3 : DB) (u bid ts : String) (d : Int) (op : Op)
    (h : updateStock db u bid d ts = Except.ok db2) :
    (∃ p0, db.products.find? (fun q => q.batch_id == bid) = some p0 ∧
      db2.products = db.products.map (fun p =>
        if p.batch_id == bid then
          { p with stock_percent := p0.stock_percent + d, last_updated := ts }
        else p) ∧
      db2.logs = db.logs ++
        [⟨db.logs.length + 1, u, bid, "Stock Update", d, p0.stock_percent,
          p0.stock_percent + d, ts⟩]) ∧
    ∃ rest, db3.logs ++ rest = (step db3 op).logs := by
  obtain ⟨p0, hf, -, -, hp, hl⟩ := updateStock_ok db db2 u bid d ts h
  refine ⟨⟨p0, hf, hp, hl⟩, ?_⟩
  cases op with
  | register u2 pn c lv dl s date tok ts2 =>
    simp only [step]
    cases hh : registerProduct db3 u2 pn c lv dl s date tok ts2 with
    | ok db4 =>
      obtain ⟨-, -, hl4⟩ := registerProduct_ok db3 db4 u2 pn c lv dl s date tok ts2 hh
      exact ⟨_, hl4.symm⟩
    | error e => exact ⟨[], List.append_nil _⟩
  | update u2 bid2 ch2 ts2 =>
    simp only [step]
    cases hh : updateStock db3 u2 bid2 ch2 ts2 with
    | ok db4 =>
      obtain ⟨q0, -, -, -, -, hl4⟩ := updateStock_ok db3 db4 u2 bid2 ch2 ts2 hh
      exact ⟨_, hl4.symm⟩
    | error e => exact ⟨[], List.append_nil _⟩

def dbC9 : DB :=
  ⟨[⟨"ACM-GEA-251012-AB12", "Gear", "Acme", "Raw", "2025-12-31", 50, "Pending", "t1"⟩,
    ⟨"BBB-XYZ-251012-CD34", "Xyz", "Bbb", "Raw", "2025-11-30", 10, "Pending", "t0"⟩],
   [⟨1, "admin", "ACM-GEA-251012-AB12", "Initial Registration", 50, 0, 50, "t1"⟩,
    ⟨2, "admin", "BBB-XYZ-251012-CD34", "Initial Registration", 10, 0, 10, "t0"⟩]⟩

def dbC9b : DB := step dbC9 (Op.update "admin" "ACM-GEA-251012-AB12" 20 "t2")

theorem update_frame_witness :
    (∃ p0, dbC9.products.find? (fun q => q.batch_id == "ACM-GEA-251012-AB12")
        = some p0 ∧
      dbC9b.products = dbC9.products.map (fun p =>
        if p.batch_id == "ACM-GEA-251012-AB12" then
          { p with stock_percent := p0.stock_percent + 20, last_updated := "t2" }
        else p) ∧
      dbC9b.logs = dbC9.logs ++
        [⟨dbC9.logs.length + 1, "admin", "ACM-GEA-251012-AB12", "Stock Update", 20,
          p0.stock_percent, p0.stock_percent + 20, "t2"⟩]) ∧
    ∃ rest, dbC9.logs ++ rest
        = (step dbC9 (Op.update "admin" "ACM-GEA-251012-AB12" 20 "t2")).logs :=
  update_frame dbC9 dbC9b dbC9 "admin" "ACM-GEA-251012-AB12" "t2" 20
    (Op.update "admin" "ACM-GEA-251012-AB12" 20 "t2") rfl

/-- C10: a successful mutating operation takes one timestamp and writes it
to both the batch row and the log row it appends: after registration the
persisted batch's last_updated equals the appended entry's timestamp, and
after a stock update the updated batch's last_updated equals the appended
entry's timestamp. -/
theorem last_updated_matches_log_timestamp
    (db db2 db3 db4 : DB) (u pn c lv dl date tok ts u2 bid2 ts2 : String)
    (s ch : Int)
    (h1 : registerProduct db u pn c lv dl s date tok ts = Except.ok db2)
    (h2 : updateStock db3 u2 bid2 ch ts2 = Except.ok db4) :
    (∃ b e, db2.products.getLast? = some b ∧ db2.logs.getLast? = some e ∧
      e.batch_id = b.batch_id ∧ b.last_updated = e.timestamp) ∧
    (∃ e, db4.logs.getLast? = some e ∧ e.batch_id = bid2 ∧
      (∃ p ∈ db4.products, p.batch_id = bid2) ∧
      ∀ p ∈ db4.products, p.batch_id = bid2 → p.last_updated = e.timestamp) := by
  constructor
  · obtain ⟨-, hp, hl⟩ := registerProduct_ok db db2 u pn c lv dl s date tok ts h1
    refine ⟨⟨mkBatchId c pn date tok, pn, c, lv, dl, s, "Pending", ts⟩,
      ⟨db.logs.length + 1, u, mkBatchId c pn date tok, "Initial Registration",
        s, 0, s, ts⟩, ?_, ?_, rfl, rfl⟩
    · rw [hp, List.getLast?_concat]
    · rw [hl, List.getLast?_concat]
  · obtain ⟨p0, hf, -, -, hp, hl⟩ := updateStock_ok db3 db4 u2 bid2 ch ts2 h2
    have hp0mem : p0 ∈ db3.products := List.mem_of_find?_eq_some hf
    have hp0bid : p0.batch_id = bid2 := by
      have hx := List.find?_some hf
      simpa using hx
    refine ⟨_, by rw [hl, List.getLast?_concat], rfl, ?_, ?_⟩
    · refine ⟨(if p0.batch_id == bid2 then
          { p0 with stock_percent := p0.stock_percent + ch, last_updated := ts2 }
        else p0), ?_, ?_⟩
      · rw [hp]
        exact List.mem_map_of_mem _ hp0mem
      · simp [hp0bid]
    · intro p hpmem hpbid
      rw [hp] at hpmem
      obtain ⟨q, hqmem, hq⟩ := List.mem_map.mp hpmem
      by_cases hc : q.batch_id = bid2
      · rw [← hq]
        simp [hc]
      · exfalso
        rw [← hq] at hpbid
        simp [hc] at hpbid

def dbC10 : DB :=
  ⟨[⟨"CCC-PRD-251012-EF56", "Prd", "Ccc", "Raw", "2025-10-31", 30, "Pending", "s1"⟩],
   [⟨1, "admin", "CCC-PRD-251012-EF56", "Initial Registration", 30, 0, 30, "s1"⟩]⟩

theorem last_updated_matches_log_timestamp_witness :
    (∃ b e, (step emptyDB (Op.register "admin" "Gear" "Acme" "Raw" "2025-12-31" 50
          "251012" "AB12" "t1")).products.getLast? = some b ∧
      (step emptyDB (Op.register "admin" "Gear" "Acme" "Raw" "2025-12-31" 50
          "251012" "AB12" "t1")).logs.getLast? = some e ∧
      e.batch_id = b.batch_id ∧ b.last_updated = e.timestamp) ∧
    (∃ e, (step dbC10 (Op.update "admin" "CCC-PRD-251012-EF56" 15 "s2")).logs.getLast?
          = some e ∧
      e.batch_id = "CCC-PRD-251012-EF56" ∧
      (∃ p ∈ (step dbC10 (Op.update "admin" "CCC-PRD-251012-EF56" 15 "s2")).products,
        p.batch_id = "CCC-PRD-251012-EF56") ∧
      ∀ p ∈ (step dbC10 (Op.update "admin" "CCC-PRD-251012-EF56" 15 "s2")).products,
        p.batch_id = "CCC-PRD-251012-EF56" → p.last_updated = e.timestamp) :=
  last_updated_matches_log_timestamp emptyDB
    (step emptyDB (Op.register "admin" "Gear" "Acme" "Raw" "2025-12-31" 50
      "251012" "AB12" "t1"))
    dbC10 (step dbC10 (Op.update "admin" "CCC-PRD-251012-EF56" 15 "s2"))
    "admin" "Gear" "Acme" "Raw" "2025-12-31" "251012" "AB12" "t1"
    "admin" "CCC-PRD-251012-EF56" "s2" 50 15 rfl rfl
